/-
Verification of the meristem-plugin-mnet core against its specification.

The development shallowly embeds the two core components:
* the Headscale control-plane client's version gate (headscale-client.ts),
* the Headscale process supervisor (headscale-manager.ts), and
* the DERP relay topology builder / selector (derp-manager.ts).

Conventions of the embedding:
* JS strings are Lean `String`s, JS numbers used as timestamps are `Int`,
  JS numbers used as latencies / config values are `ℚ` (every finite double
  is a rational; the inputs exercised here are exactly representable).
* JS `Map` / plain-object string-keyed records are association lists with
  first-occurrence key positions and last-write-wins values (`upsertAssoc`),
  which is exactly the insertion-order semantics of `Map.set` /
  property assignment.
* The mutable supervisor closure is explicit state passing on
  `ManagerState`; the asynchronous exit notification of a spawned process
  is modelled by the `handleExit` transition (the source registers one exit
  callback per spawned process; the callback body reads only the shared
  `restartCount` / `maxRestarts` variables and never inspects which process
  exited, hence the unused handle argument).
* Ghost fields (`spawnCount`, `probeCount`, `nextHandle`) count observable
  effects (calls of `processFactory`, calls of `client.probeVersion`) and
  name process handles; they influence nothing.
-/
import Mathlib

namespace MNet

/-! ## Control-plane client: version compatibility (headscale-client.ts) -/

/-- Whitespace stripped by `String.prototype.trim` (ASCII range). -/
def jsWhitespace (c : Char) : Bool :=
  c = ' ' || c = '\t' || c = '\n' || c = '\r' || c = '\x0b' || c = '\x0c'

/-- `value.trim()` on the character list of a JS string. -/
def jsTrim (cs : List Char) : List Char :=
  ((cs.dropWhile jsWhitespace).reverse.dropWhile jsWhitespace).reverse

/-- The `v?` prefix of both version regexes: an optional leading `v`. -/
def dropLeadingV : List Char → List Char
  | 'v' :: rest => rest
  | cs => cs

/-- Matcher for the regex fragment `0\.2[4-9]\.` (after the optional `v`). -/
def matchMinor24to29 : List Char → Bool
  | '0' :: '.' :: '2' :: d :: '.' :: _ => decide ('4' ≤ d) && decide (d ≤ '9')
  | _ => false

/-- Matcher for the regex fragment `\d*\.`: some (possibly empty) run of
digits followed by a literal dot.  Since `.` is not a digit, the greedy and
backtracking readings coincide with this recursion. -/
def digitsThenDot : List Char → Bool
  | [] => false
  | c :: rest => if c = '.' then true else if c.isDigit then digitsThenDot rest else false

/-- Matcher for the regex fragment `0\.[3-9]\d*\.` (after the optional `v`). -/
def matchMinor30plus : List Char → Bool
  | '0' :: '.' :: c :: rest => decide ('3' ≤ c) && decide (c ≤ '9') && digitsThenDot rest
  | _ => false

/-- `isCompatibleVersion` from headscale-client.ts: trim, reject the empty
string, then test `/^v?0\.2[4-9]\./` or `/^v?0\.[3-9]\d*\./`. -/
def isCompatibleVersion (s : String) : Bool :=
  let normalized := jsTrim s.data
  if normalized.length = 0 then false
  else matchMinor24to29 (dropLeadingV normalized) || matchMinor30plus (dropLeadingV normalized)

/-- Result shape of `client.probeVersion()`. -/
structure VersionProbe where
  compatible : Bool
  version : Option String
deriving DecidableEq

/-- `probeVersion` from headscale-client.ts, as a function of the `version`
field of the `/api/v1/version` payload (`none` models a missing or
non-string field).  The source guards `version ? isCompatibleVersion(version)
: false`, where the empty string is falsy. -/
def probeVersion (payload : Option String) : VersionProbe :=
  match payload with
  | some v => { compatible := if v = "" then false else isCompatibleVersion v, version := some v }
  | none => { compatible := false, version := none }

/-- Decimal version string `major.minor.patch`. -/
def versionString (major minor patch : Nat) : String :=
  toString major ++ "." ++ toString minor ++ "." ++ toString patch

/-- Compatibility as the claim words it (spec-side definition, for the
refinement comparison only): accept `0.24.x` through `0.29.x`, any `0.x`
with `x ≥ 30`, and any major `≥ 1`. -/
def claimedCompatible (major minor : Nat) : Bool :=
  (decide (major = 0) && decide (24 ≤ minor) && decide (minor ≤ 29)) ||
  (decide (major = 0) && decide (30 ≤ minor)) ||
  decide (1 ≤ major)

/-! ## Process supervisor (headscale-manager.ts) -/

/-- The published status snapshot (`HeadscaleStatus`). -/
structure HeadscaleStatus where
  running : Bool
  restartCount : Nat
  compatible : Bool
  version : Option String
deriving DecidableEq

/-- The initial frozen status record of `createHeadscaleManager`. -/
def initialStatus : HeadscaleStatus :=
  { running := false, restartCount := 0, compatible := false, version := none }

/-- The mutable closure state of one `createHeadscaleManager` instance.
`processRef` and `restartCount` are the source's `let` variables; `status`
is the published snapshot.  `nextHandle`, `spawnCount` and `probeCount` are
ghost instrumentation: handles are numbered in spawn order, `spawnCount`
counts `processFactory` invocations, `probeCount` counts
`client.probeVersion()` invocations. -/
structure ManagerState where
  processRef : Option Nat
  restartCount : Nat
  status : HeadscaleStatus
  nextHandle : Nat
  spawnCount : Nat
  probeCount : Nat
deriving DecidableEq

/-- State of a freshly created manager. -/
def initialManagerState : ManagerState :=
  { processRef := none, restartCount := 0, status := initialStatus,
    nextHandle := 0, spawnCount := 0, probeCount := 0 }

/-- `spawn()` minus the exit-callback registration: invoke the process
factory and store the fresh handle.  The registered callback is modelled by
`handleExit` firing later. -/
def spawn (s : ManagerState) : ManagerState :=
  { s with processRef := some s.nextHandle, nextHandle := s.nextHandle + 1,
           spawnCount := s.spawnCount + 1 }

/-- The exit callback registered by `spawn()` firing for the process with
handle `_exited`.  Mirrors the source body: mark not running; if
`restartCount >= maxRestarts` stop; otherwise increment `restartCount`,
publish it, spawn a replacement, and mark running.  The source callback
never consults `processRef` or the identity of the exited process, so the
handle argument is unused. -/
def handleExit (maxRestarts : Nat) (s : ManagerState) (_exited : Nat) : ManagerState :=
  let s1 := { s with status := { s.status with running := false } }
  if maxRestarts ≤ s1.restartCount then s1
  else
    let s2 := { s1 with restartCount := s1.restartCount + 1 }
    let s3 := { s2 with status := { s2.status with restartCount := s2.restartCount } }
    let s4 := spawn s3
    { s4 with status := { s4.status with running := true } }

/-- `start()`, as a function of the probe result the client would return.
Returns the value produced for the caller (status or thrown error) together
with the post-state. -/
def start (probe : VersionProbe) (s : ManagerState) :
    Except String HeadscaleStatus × ManagerState :=
  if s.processRef.isSome then (Except.ok s.status, s)
  else
    let s0 := { s with probeCount := s.probeCount + 1 }
    if probe.compatible = false then
      let st1 := { s0.status with compatible := false, version := probe.version }
      let s1 := { s0 with status := st1 }
      (Except.error ("Incompatible Headscale version: " ++ probe.version.getD "unknown"), s1)
    else
      let s1 := spawn s0
      let st2 := { s1.status with running := true, compatible := true, version := probe.version }
      let s2 := { s1 with status := st2 }
      (Except.ok s2.status, s2)

/-- `stop()`: no-op without a live handle; otherwise clear the handle
reference first, send SIGTERM (no state effect in the model) and mark not
running. -/
def stop (s : ManagerState) : ManagerState :=
  match s.processRef with
  | none => s
  | some _ => { s with processRef := none, status := { s.status with running := false } }

/-- `options.maxRestarts ?? 3`. -/
def resolveMaxRestarts (opt : Option Nat) : Nat := opt.getD 3

/-- Delivery of a sequence of process-exit notifications. -/
def runExits (maxRestarts : Nat) (s : ManagerState) (exits : List Nat) : ManagerState :=
  exits.foldl (handleExit maxRestarts) s

/-! ## DERP relay topology and selection (derp-manager.ts) -/

/-- `DerpNode` as in derp-manager.ts.  `regionId` and the ports are
integer-valued JS numbers. -/
structure DerpNode where
  id : String
  regionId : Int
  name : String
  hostName : String
  ipv4 : Option String
  stunPort : Int
  derpPort : Int
deriving DecidableEq

/-- One entry of `DerpRegion.Nodes`. -/
structure DerpRegionNode where
  Name : String
  RegionID : Int
  HostName : String
  IPv4 : Option String
  STUNPort : Int
  RelayPort : Int
deriving DecidableEq

/-- `DerpRegion` as in derp-manager.ts. -/
structure DerpRegion where
  RegionID : Int
  RegionCode : String
  Nodes : List DerpRegionNode
deriving DecidableEq

/-- The node-shaped record pushed into a region by `groupNodesAsDerpMap`. -/
def toRegionNode (n : DerpNode) : DerpRegionNode :=
  { Name := n.name, RegionID := n.regionId, HostName := n.hostName,
    IPv4 := n.ipv4, STUNPort := n.stunPort, RelayPort := n.derpPort }

/-- The three values of `DerpMode`. -/
inductive DerpMode
  | selfHostedOnly
  | publicOnly
  | hybrid
deriving DecidableEq

/-- Association-list lookup: the value at the first occurrence of the key.
Models reading a JS `Map` entry or object property. -/
def lookupKey {κ β : Type} [DecidableEq κ] : List (κ × β) → κ → Option β
  | [], _ => none
  | (k1, v) :: t, k => if k1 = k then some v else lookupKey t k

/-- Association-list update: overwrite the value at the first occurrence of
the key in place, or append a fresh entry.  Models `Map.set` and JS object
property assignment, both of which keep the key's original insertion
position. -/
def upsertAssoc {κ β : Type} [DecidableEq κ] : List (κ × β) → κ → β → List (κ × β)
  | [], k, v => [(k, v)]
  | (k1, v1) :: t, k, v => if k1 = k then (k1, v) :: t else (k1, v1) :: upsertAssoc t k v

/-- The `Map<string, DerpNode>` built by `dedupeNodes`. -/
def nodesById (nodes : List DerpNode) : List (String × DerpNode) :=
  nodes.foldl (fun m n => upsertAssoc m n.id n) []

/-- `dedupeNodes` from derp-manager.ts: last write wins per id, first
insertion position kept (`[...byId.values()]`). -/
def dedupeNodes (nodes : List DerpNode) : List DerpNode :=
  (nodesById nodes).map Prod.snd

/-- The last node of the list carrying the given id, if any. -/
def lastWithId (nodes : List DerpNode) (k : String) : Option DerpNode :=
  nodes.foldl (fun acc n => if n.id = k then some n else acc) none

/-- One iteration of the `groupNodesAsDerpMap` loop.  The source keys the
`regions` record by `String(node.regionId)`; since `String` is injective on
integer-valued numbers, the embedding keys regions by `regionId` itself. -/
def groupStep (regions : List (Int × DerpRegion)) (node : DerpNode) : List (Int × DerpRegion) :=
  match lookupKey regions node.regionId with
  | none =>
    upsertAssoc regions node.regionId
      { RegionID := node.regionId, RegionCode := "region-" ++ toString node.regionId,
        Nodes := [toRegionNode node] }
  | some existing =>
    upsertAssoc regions node.regionId
      { existing with Nodes := existing.Nodes ++ [toRegionNode node] }

/-- `groupNodesAsDerpMap` from derp-manager.ts: group the node list by
region id into the `Regions` record. -/
def groupNodesAsDerpMap (nodes : List DerpNode) : List (Int × DerpRegion) :=
  nodes.foldl groupStep []

/-- `loadPublicNodes`, split on whether the config path produced nodes.
`cfg` is `config.publicNodes`; `file` is the parsed content of
`config.publicNodesPath` when such a path is configured and readable
(parsing itself is outside the claims verified here). -/
def loadFromFile : Option (List DerpNode) → List DerpNode
  | some f => dedupeNodes f
  | none => []

/-- `loadPublicNodes` from derp-manager.ts: an inline non-empty
`config.publicNodes` wins, otherwise the file source, otherwise empty. -/
def loadPublicNodes (cfg : Option (List DerpNode)) (file : Option (List DerpNode)) :
    List DerpNode :=
  match cfg with
  | some l => if 0 < l.length then dedupeNodes l else loadFromFile file
  | none => loadFromFile file

/-- `resolveNodesByMode` from derp-manager.ts, as a function of the already
resolved external node set (`publicNodes` is the `loadPublicNodes` result).
`Except.error` models the thrown configuration error. -/
def resolveNodesByMode (mode : DerpMode) (selfHostedNodes : List DerpNode)
    (publicNodes : List DerpNode) : Except String (List DerpNode) :=
  let selfHosted := dedupeNodes selfHostedNodes
  match mode with
  | DerpMode.selfHostedOnly => Except.ok selfHosted
  | DerpMode.publicOnly =>
    if publicNodes.length = 0 then
      Except.error "public-only mode requires non-empty public DERP source"
    else Except.ok publicNodes
  | DerpMode.hybrid =>
    if publicNodes.length = 0 then
      Except.error "hybrid mode requires non-empty public DERP source"
    else Except.ok (dedupeNodes (selfHosted ++ publicNodes))

/-- `buildDerpMap`: resolve the active node set and group it. -/
def buildDerpMap (mode : DerpMode) (selfHostedNodes publicNodes : List DerpNode) :
    Except String (List (Int × DerpRegion)) :=
  (resolveNodesByMode mode selfHostedNodes publicNodes).map groupNodesAsDerpMap

/-- `Number.MAX_SAFE_INTEGER`, the latency substituted for nodes absent
from the metrics record. -/
def MAX_SAFE_INTEGER : ℚ := 9007199254740991

/-- The latency the sort comparator reads for a node id:
`metrics[id] ?? Number.MAX_SAFE_INTEGER`. -/
def latencyOf (metrics : List (String × ℚ)) (id : String) : ℚ :=
  (lookupKey metrics id).getD MAX_SAFE_INTEGER

/-- The comparator of `sortByLatency` as a total order test: the JS
comparator `leftLatency - rightLatency` sorts ascending. -/
def latLE (metrics : List (String × ℚ)) (left right : DerpNode) : Bool :=
  decide (latencyOf metrics left.id ≤ latencyOf metrics right.id)

/-- `sortByLatency` from derp-manager.ts.  `Array.prototype.sort` is a
stable sort (ES2019), so the embedding is a stable merge sort under the
comparator's order. -/
def sortByLatency (nodes : List DerpNode) (metrics : List (String × ℚ)) : List DerpNode :=
  nodes.mergeSort (latLE metrics)

/-- The selector's closure state: `activeNodeId` and `lastSwitchAt`. -/
structure SelectorState where
  activeNodeId : Option String
  lastSwitchAt : Int
deriving DecidableEq

/-- `DEFAULT_COOLDOWN_MS = 10_000`. -/
def DEFAULT_COOLDOWN_MS : Int := 10000

/-- The cooldown resolution of `createDerpManager`:
`typeof cooldownMs === 'number' && cooldownMs > 0 ? Math.floor(cooldownMs)
: DEFAULT_COOLDOWN_MS`.  `none` models an absent or non-number field. -/
def effectiveCooldownMs (cooldownMs : Option ℚ) : Int :=
  match cooldownMs with
  | some q => if 0 < q then Int.floor q else DEFAULT_COOLDOWN_MS
  | none => DEFAULT_COOLDOWN_MS

/-- `selectRelayNode` from derp-manager.ts, over an already resolved node
set.  Returns the chosen node together with the selector state after the
call.  `st.activeNodeId = some a` with `a` non-empty is the JS truthiness
test on `activeNodeId`. -/
def selectRelayNode (nodes : List DerpNode) (metrics : List (String × ℚ))
    (cooldownMs : Int) (st : SelectorState) (currentTs : Int) :
    Option DerpNode × SelectorState :=
  if nodes.length = 0 then (none, st)
  else
    match sortByLatency nodes metrics with
    | [] => (none, st)
    | next :: _ =>
      let suppressed : Option DerpNode :=
        match st.activeNodeId with
        | some activeId =>
          if activeId ≠ "" ∧ activeId ≠ next.id ∧ currentTs - st.lastSwitchAt < cooldownMs then
            nodes.find? (fun item => item.id = activeId)
          else none
        | none => none
      match suppressed with
      | some current => (some current, st)
      | none =>
        if st.activeNodeId = some next.id then (some next, st)
        else (some next, { activeNodeId := some next.id, lastSwitchAt := currentTs })

/-- Well-formedness of a region record: every entry is keyed by its
region's id, carries the synthesized `region-` code, and contains only
nodes of that region; keys are unique. -/
def RegionWF (m : List (Int × DerpRegion)) : Prop :=
  (∀ p ∈ m, p.1 = p.2.RegionID ∧
    p.2.RegionCode = "region-" ++ toString p.2.RegionID ∧
    ∀ rn ∈ p.2.Nodes, rn.RegionID = p.2.RegionID) ∧
  (m.map Prod.fst).Nodup

/-! ### Concrete fixtures used by witnesses -/

/-- A self-hosted relay node fixture. -/
def selfNode : DerpNode :=
  { id := "self", regionId := 900, name := "self-1", hostName := "self.example",
    ipv4 := none, stunPort := 3478, derpPort := 443 }

/-- A public relay node fixture. -/
def publicNode : DerpNode :=
  { id := "public", regionId := 901, name := "pub-1", hostName := "pub.example",
    ipv4 := some "1.2.3.4", stunPort := 3478, derpPort := 443 }

/-! ## Theorems -/

/-! ### Version gate (C2) -/

/-- C2 is false on the code: the claim demands that any major version at or
above 1 be compatible and that everything below 0.24 be incompatible, but
`isCompatibleVersion` rejects the version string 1.0.0 (both regexes require
the major component to be the literal 0) and accepts 0.3.0 (the regex
fragment `0\.[3-9]\d*\.` matches a single minor digit 3-9, not only minors
at or above 30). -/
theorem versionClaim_counterexample :
    isCompatibleVersion (versionString 1 0 0) = false ∧ claimedCompatible 1 0 = true ∧
    isCompatibleVersion (versionString 0 3 0) = true ∧ claimedCompatible 0 3 = false := by
  decide

/-- C2 (amended): `probeVersion` reports compatible exactly when the trimmed
version string, after an optional leading v, is 0.minor.rest where the
decimal minor digits are 24 through 29 exactly, or begin with a digit 3-9;
for minors below 100 this accepts precisely 0.3-0.9 and 0.24-0.99.  Every
major at or above 1 is incompatible, malformed strings (empty,
non-matching, minor 240) are incompatible, and a missing or non-string
version field yields compatible false with version null (so does an empty
version string). -/
theorem isCompatibleVersion_characterization :
    (∀ minor : Nat, minor < 100 →
      (isCompatibleVersion (versionString 0 minor 0) = true ↔
        (3 ≤ minor ∧ minor ≤ 9) ∨ 24 ≤ minor)) ∧
    (∀ major : Nat, 1 ≤ major → major ≤ 30 →
      isCompatibleVersion (versionString major 0 0) = false) ∧
    isCompatibleVersion "" = false ∧
    isCompatibleVersion "garbage" = false ∧
    isCompatibleVersion "0.240.0" = false ∧
    probeVersion none = { compatible := false, version := none } ∧
    probeVersion (some "") = { compatible := false, version := some "" } :=
  ⟨by decide, by decide, by decide, by decide, by decide, by decide, by decide⟩

/-- Witness for C2's amended theorem at minor 24. -/
theorem isCompatibleVersion_characterization_witness :
    isCompatibleVersion (versionString 0 24 0) = true ↔ (3 ≤ 24 ∧ 24 ≤ 9) ∨ 24 ≤ 24 :=
  isCompatibleVersion_characterization.1 24 (by decide)

/-! ### Supervisor (C1, C3, C7) -/

/-- C1 is a code bug: after a successful `start` (compatible probe) and a
`stop`, delivering the exit notification of the stopped process (handle 0)
increments `restartCount` from 0 to 1, publishes it, spawns a replacement
process (the spawn count rises from 1 to 2, a fresh handle 1 becomes live)
and republishes running - because the exit callback in `spawn` never checks
whether the exited process is still the currently owned handle, even though
`stop` cleared the handle reference before signalling.  The claim (and the
spec) requires `restartCount` unchanged and no new process. -/
theorem stopThenExit_spuriousRestart :
    (stop (start { compatible := true, version := some "v0.24.1" }
        initialManagerState).2).restartCount = 0 ∧
    (stop (start { compatible := true, version := some "v0.24.1" }
        initialManagerState).2).spawnCount = 1 ∧
    (stop (start { compatible := true, version := some "v0.24.1" }
        initialManagerState).2).processRef = none ∧
    (handleExit 3 (stop (start { compatible := true, version := some "v0.24.1" }
        initialManagerState).2) 0).restartCount = 1 ∧
    (handleExit 3 (stop (start { compatible := true, version := some "v0.24.1" }
        initialManagerState).2) 0).status.restartCount = 1 ∧
    (handleExit 3 (stop (start { compatible := true, version := some "v0.24.1" }
        initialManagerState).2) 0).spawnCount = 2 ∧
    (handleExit 3 (stop (start { compatible := true, version := some "v0.24.1" }
        initialManagerState).2) 0).processRef = some 1 ∧
    (handleExit 3 (stop (start { compatible := true, version := some "v0.24.1" }
        initialManagerState).2) 0).status.running = true := by
  decide

/-- One exit delivery never pushes `restartCount` past the budget. -/
theorem handleExit_restartCount_le (m : Nat) (s : ManagerState) (h : Nat)
    (hle : s.restartCount ≤ m) : (handleExit m s h).restartCount ≤ m := by
  by_cases hc : m ≤ s.restartCount <;> simp [handleExit, spawn, hc] <;> omega

/-- One exit delivery keeps the published restart count within the budget. -/
theorem handleExit_status_restartCount_le (m : Nat) (s : ManagerState) (h : Nat)
    (h1 : s.restartCount ≤ m) (h2 : s.status.restartCount ≤ m) :
    (handleExit m s h).status.restartCount ≤ m := by
  by_cases hc : m ≤ s.restartCount <;> simp [handleExit, spawn, hc] <;> omega

/-- Exit handling never consults the version probe. -/
theorem handleExit_probeCount (m : Nat) (s : ManagerState) (h : Nat) :
    (handleExit m s h).probeCount = s.probeCount := by
  by_cases hc : m ≤ s.restartCount <;> simp [handleExit, spawn, hc]

/-- Invariant carried over any sequence of exit deliveries. -/
theorem runExits_inv (m : Nat) (exits : List Nat) : ∀ s : ManagerState,
    s.restartCount ≤ m → s.status.restartCount ≤ m →
    (runExits m s exits).restartCount ≤ m ∧
    (runExits m s exits).status.restartCount ≤ m ∧
    (runExits m s exits).probeCount = s.probeCount := by
  induction exits with
  | nil => intro s h1 h2; exact ⟨h1, h2, rfl⟩
  | cons e t ih =>
    intro s h1 h2
    have step := ih (handleExit m s e) (handleExit_restartCount_le m s e h1)
      (handleExit_status_restartCount_le m s e h1 h2)
    refine ⟨step.1, step.2.1, ?_⟩
    rw [show runExits m s (e :: t) = runExits m (handleExit m s e) t from rfl,
      step.2.2, handleExit_probeCount]

/-- An exit arriving with the budget exhausted only republishes
not-running: no restart, no spawn, no other state change. -/
theorem handleExit_saturated (m : Nat) (s : ManagerState) (h : Nat)
    (hge : m ≤ s.restartCount) :
    handleExit m s h = { s with status := { s.status with running := false } } := by
  simp [handleExit, hge]

/-- C3: starting a default-budget supervisor (maxRestarts 3) and delivering
any sequence of process exits keeps both the internal and the published
restart count at or below 3, never re-probes the version (the probe count
stays at the single initial probe), and once the count has reached 3 a
further exit spawns nothing and leaves the state unchanged except for the
published running flag dropping to false. -/
theorem restartBudget_bound (v : Option String) (exits : List Nat) :
    (runExits 3 (start { compatible := true, version := v }
        initialManagerState).2 exits).restartCount ≤ 3 ∧
    (runExits 3 (start { compatible := true, version := v }
        initialManagerState).2 exits).status.restartCount ≤ 3 ∧
    (runExits 3 (start { compatible := true, version := v }
        initialManagerState).2 exits).probeCount = 1 ∧
    ∀ h : Nat, 3 ≤ (runExits 3 (start { compatible := true, version := v }
        initialManagerState).2 exits).restartCount →
      handleExit 3 (runExits 3 (start { compatible := true, version := v }
          initialManagerState).2 exits) h =
        { runExits 3 (start { compatible := true, version := v }
            initialManagerState).2 exits with
          status := { (runExits 3 (start { compatible := true, version := v }
            initialManagerState).2 exits).status with running := false } } := by
  have hrc : (start { compatible := true, version := v }
      initialManagerState).2.restartCount = 0 := by
    simp [start, spawn, initialManagerState, initialStatus]
  have hsrc : (start { compatible := true, version := v }
      initialManagerState).2.status.restartCount = 0 := by
    simp [start, spawn, initialManagerState, initialStatus]
  have hpc : (start { compatible := true, version := v }
      initialManagerState).2.probeCount = 1 := by
    simp [start, spawn, initialManagerState, initialStatus]
  have base := runExits_inv 3 exits
    (start { compatible := true, version := v } initialManagerState).2
    (by omega) (by omega)
  refine ⟨base.1, base.2.1, ?_, fun h hge => handleExit_saturated 3 _ h hge⟩
  rw [base.2.2, hpc]

/-- Witness for C3 at the spec's four-exit scenario: the fifth exit only
drops the running flag. -/
theorem restartBudget_bound_witness :
    handleExit 3 (runExits 3 (start { compatible := true, version := some "v0.24.1" }
        initialManagerState).2 [0, 1, 2, 3]) 4 =
      { runExits 3 (start { compatible := true, version := some "v0.24.1" }
          initialManagerState).2 [0, 1, 2, 3] with
        status := { (runExits 3 (start { compatible := true, version := some "v0.24.1" }
          initialManagerState).2 [0, 1, 2, 3]).status with running := false } } :=
  (restartBudget_bound (some "v0.24.1") [0, 1, 2, 3]).2.2.2 4 (by decide)

/-- C7: with no live handle, an incompatible probe makes `start` raise the
incompatibility error, publish compatible false with the reported version,
spawn nothing and leave no live handle; a compatible probe makes `start`
spawn exactly one process and publish running true, compatible true and the
reported version. -/
theorem start_versionGate (probe : VersionProbe) (s : ManagerState)
    (hnone : s.processRef = none) :
    (probe.compatible = false →
      (start probe s).1 = Except.error
        ("Incompatible Headscale version: " ++ probe.version.getD "unknown") ∧
      (start probe s).2.status.compatible = false ∧
      (start probe s).2.status.version = probe.version ∧
      (start probe s).2.spawnCount = s.spawnCount ∧
      (start probe s).2.processRef = none) ∧
    (probe.compatible = true →
      (start probe s).2.spawnCount = s.spawnCount + 1 ∧
      (start probe s).1 = Except.ok (start probe s).2.status ∧
      (start probe s).2.status.running = true ∧
      (start probe s).2.status.compatible = true ∧
      (start probe s).2.status.version = probe.version) := by
  constructor <;> intro hc <;> simp [start, hnone, hc, spawn]

/-- Witness for C7: incompatible v0.23.0 from a fresh manager fails fast
without spawning; compatible v0.24.1 spawns exactly once. -/
theorem start_versionGate_witness :
    ((start { compatible := false, version := some "v0.23.0" } initialManagerState).1 =
      Except.error "Incompatible Headscale version: v0.23.0" ∧
     (start { compatible := false, version := some "v0.23.0" }
        initialManagerState).2.spawnCount = 0) ∧
    (start { compatible := true, version := some "v0.24.1" }
        initialManagerState).2.spawnCount = 1 := by
  have h1 := (start_versionGate { compatible := false, version := some "v0.23.0" }
    initialManagerState rfl).1 rfl
  have h2 := (start_versionGate { compatible := true, version := some "v0.24.1" }
    initialManagerState rfl).2 rfl
  exact ⟨⟨h1.1, h1.2.2.2.1⟩, h2.1⟩

/-! ### Association-list lemmas (Map.set / object-assignment semantics) -/

section AssocLemmas

variable {κ β : Type} [DecidableEq κ]

theorem lookupKey_upsert_self (m : List (κ × β)) (k : κ) (v : β) :
    lookupKey (upsertAssoc m k v) k = some v := by
  induction m with
  | nil => simp [upsertAssoc, lookupKey]
  | cons p t ih =>
    obtain ⟨k1, v1⟩ := p
    by_cases hk : k1 = k <;> simp [upsertAssoc, lookupKey, hk, ih]

theorem lookupKey_upsert_ne (m : List (κ × β)) (k k2 : κ) (v : β) (hne : k2 ≠ k) :
    lookupKey (upsertAssoc m k v) k2 = lookupKey m k2 := by
  induction m with
  | nil => simp [upsertAssoc, lookupKey, Ne.symm hne]
  | cons p t ih =>
    obtain ⟨k1, v1⟩ := p
    by_cases hk : k1 = k
    · subst hk
      have hne1 : k1 ≠ k2 := fun h => hne h.symm
      simp [upsertAssoc, lookupKey, hne1]
    · by_cases hk2 : k1 = k2 <;> simp [upsertAssoc, lookupKey, hk, hk2, ih, hne]

theorem mem_upsert : ∀ (m : List (κ × β)) (k : κ) (v : β) (p : κ × β),
    p ∈ upsertAssoc m k v → p = (k, v) ∨ p ∈ m
  | [], k, v, p, hp => by
    simp only [upsertAssoc, List.mem_singleton] at hp
    exact Or.inl hp
  | (k1, v1) :: t, k, v, p, hp => by
    by_cases hk : k1 = k
    · subst hk
      rw [show upsertAssoc ((k1, v1) :: t) k1 v = (k1, v) :: t from by
        simp [upsertAssoc]] at hp
      rcases List.mem_cons.1 hp with h | h
      · exact Or.inl h
      · exact Or.inr (List.mem_cons_of_mem _ h)
    · rw [show upsertAssoc ((k1, v1) :: t) k v = (k1, v1) :: upsertAssoc t k v from by
        simp [upsertAssoc, hk]] at hp
      rcases List.mem_cons.1 hp with h | h
      · exact Or.inr (by simp [h])
      · rcases mem_upsert t k v p h with h2 | h2
        · exact Or.inl h2
        · exact Or.inr (List.mem_cons_of_mem _ h2)

theorem lookupKey_mem : ∀ (m : List (κ × β)) (k : κ) (v : β),
    lookupKey m k = some v → (k, v) ∈ m
  | [], k, v, h => by simp [lookupKey] at h
  | (k1, v1) :: t, k, v, h => by
    by_cases hk : k1 = k
    · subst hk
      rw [show lookupKey ((k1, v1) :: t) k1 = some v1 from by simp [lookupKey]] at h
      rw [show v = v1 from (Option.some.injEq _ _ ▸ h).symm]
      simp
    · rw [show lookupKey ((k1, v1) :: t) k = lookupKey t k from by simp [lookupKey, hk]] at h
      exact List.mem_cons_of_mem _ (lookupKey_mem t k v h)

theorem lookupKey_isSome_iff_mem (m : List (κ × β)) (k : κ) :
    (lookupKey m k).isSome = true ↔ k ∈ m.map Prod.fst := by
  induction m with
  | nil => simp [lookupKey]
  | cons p t ih =>
    obtain ⟨k1, v1⟩ := p
    by_cases hk : k1 = k
    · subst hk
      simp [lookupKey]
    · simp [lookupKey, hk, ih, Ne.symm hk]

theorem lookupKey_eq_none_of_not_mem (m : List (κ × β)) (k : κ)
    (h : k ∉ m.map Prod.fst) : lookupKey m k = none := by
  cases hl : lookupKey m k with
  | none => rfl
  | some v =>
    exact absurd ((lookupKey_isSome_iff_mem m k).1 (by simp [hl])) h

theorem keys_upsert_mem (m : List (κ × β)) (k : κ) (v : β)
    (h : k ∈ m.map Prod.fst) :
    (upsertAssoc m k v).map Prod.fst = m.map Prod.fst := by
  induction m with
  | nil => simp at h
  | cons p t ih =>
    obtain ⟨k1, v1⟩ := p
    by_cases hk : k1 = k
    · simp [upsertAssoc, hk]
    · simp only [List.map_cons, List.mem_cons] at h
      rcases h with h | h
      · exact absurd h.symm hk
      · simp [upsertAssoc, hk, ih h]

theorem keys_upsert_not_mem (m : List (κ × β)) (k : κ) (v : β)
    (h : k ∉ m.map Prod.fst) :
    (upsertAssoc m k v).map Prod.fst = m.map Prod.fst ++ [k] := by
  induction m with
  | nil => simp [upsertAssoc]
  | cons p t ih =>
    obtain ⟨k1, v1⟩ := p
    simp only [List.map_cons, List.mem_cons, not_or] at h
    simp [upsertAssoc, Ne.symm h.1, ih h.2]

theorem nodup_keys_upsert (m : List (κ × β)) (k : κ) (v : β)
    (h : (m.map Prod.fst).Nodup) :
    ((upsertAssoc m k v).map Prod.fst).Nodup := by
  by_cases hm : k ∈ m.map Prod.fst
  · rw [keys_upsert_mem m k v hm]
    exact h
  · rw [keys_upsert_not_mem m k v hm]
    simp [List.nodup_append, h, hm]

theorem assoc_ext : ∀ (m1 m2 : List (κ × β)),
    m1.map Prod.fst = m2.map Prod.fst → (m1.map Prod.fst).Nodup →
    (∀ k, lookupKey m1 k = lookupKey m2 k) → m1 = m2
  | [], [], _, _, _ => rfl
  | [], (k2, v2) :: t2, hkeys, _, _ => by simp at hkeys
  | (k1, v1) :: t1, [], hkeys, _, _ => by simp at hkeys
  | (k1, v1) :: t1, (k2, v2) :: t2, hkeys, hnd, hlk => by
    simp only [List.map_cons, List.cons.injEq] at hkeys
    obtain ⟨hk, htkeys⟩ := hkeys
    subst hk
    have hv : v1 = v2 := by
      have := hlk k1
      simpa [lookupKey] using this
    subst hv
    have hnotmem : k1 ∉ t1.map Prod.fst := by
      simp only [List.map_cons, List.nodup_cons] at hnd
      exact hnd.1
    have hnd1 : (t1.map Prod.fst).Nodup := by
      simp only [List.map_cons, List.nodup_cons] at hnd
      exact hnd.2
    have htail : t1 = t2 := by
      refine assoc_ext t1 t2 htkeys hnd1 (fun k => ?_)
      by_cases hk : k = k1
      · subst hk
        rw [lookupKey_eq_none_of_not_mem t1 k hnotmem,
          lookupKey_eq_none_of_not_mem t2 k (htkeys ▸ hnotmem)]
      · have hk1 : k1 ≠ k := fun h => hk h.symm
        have := hlk k
        simpa [lookupKey, hk1] using this
    rw [htail]

end AssocLemmas

/-! ### Deduplication lemmas (C9) -/

theorem lastWithId_acc (t : List DerpNode) (k : String) : ∀ acc : Option DerpNode,
    t.foldl (fun a n => if n.id = k then some n else a) acc =
      match lastWithId t k with
      | some v => some v
      | none => acc := by
  induction t with
  | nil => intro acc; simp [lastWithId]
  | cons n t ih =>
    intro acc
    rw [List.foldl_cons]
    rw [ih (if n.id = k then some n else acc)]
    rw [show lastWithId (n :: t) k =
      t.foldl (fun a m => if m.id = k then some m else a) (if n.id = k then some n else none)
      from rfl]
    rw [ih (if n.id = k then some n else none)]
    cases lastWithId t k <;> by_cases hk : n.id = k <;> simp [hk]

theorem lastWithId_cons (n : DerpNode) (t : List DerpNode) (k : String) :
    lastWithId (n :: t) k =
      match lastWithId t k with
      | some v => some v
      | none => if n.id = k then some n else none := by
  rw [show lastWithId (n :: t) k =
    t.foldl (fun a m => if m.id = k then some m else a) (if n.id = k then some n else none)
    from rfl]
  exact lastWithId_acc t k _

theorem lookupKey_byId_foldl (l : List DerpNode) :
    ∀ (m : List (String × DerpNode)) (k : String),
    lookupKey (l.foldl (fun mm n => upsertAssoc mm n.id n) m) k =
      match lastWithId l k with
      | some v => some v
      | none => lookupKey m k := by
  induction l with
  | nil => intro m k; simp [lastWithId]
  | cons n t ih =>
    intro m k
    rw [List.foldl_cons, ih, lastWithId_cons]
    cases hlt : lastWithId t k with
    | some v => simp
    | none =>
      by_cases hk : n.id = k
      · subst hk
        simp [lookupKey_upsert_self]
      · simp [hk, lookupKey_upsert_ne m n.id k n (Ne.symm hk)]

theorem lastWithId_isSome_of_mem (l : List DerpNode) (n : DerpNode) (h : n ∈ l) :
    (lastWithId l n.id).isSome = true := by
  induction l with
  | nil => simp at h
  | cons mhd t ih =>
    rw [lastWithId_cons]
    cases hlt : lastWithId t n.id with
    | some v => simp
    | none =>
      rcases List.mem_cons.1 h with h1 | h1
      · subst h1
        simp
      · have := ih h1
        rw [hlt] at this
        simp at this

theorem mem_id_keys_byId (l : List DerpNode) (n : DerpNode) (h : n ∈ l) :
    n.id ∈ (nodesById l).map Prod.fst := by
  rw [← lookupKey_isSome_iff_mem]
  rw [show nodesById l = l.foldl (fun mm x => upsertAssoc mm x.id x) [] from rfl]
  rw [lookupKey_byId_foldl l [] n.id]
  have := lastWithId_isSome_of_mem l n h
  cases hlt : lastWithId l n.id with
  | some v => simp
  | none => rw [hlt] at this; simp at this

theorem keys_byId_foldl_of_subset (l : List DerpNode) :
    ∀ m : List (String × DerpNode), (∀ n ∈ l, n.id ∈ m.map Prod.fst) →
    (l.foldl (fun mm n => upsertAssoc mm n.id n) m).map Prod.fst = m.map Prod.fst := by
  induction l with
  | nil => intro m _; rfl
  | cons n t ih =>
    intro m hsub
    rw [List.foldl_cons]
    have hkeys := keys_upsert_mem m n.id n (hsub n (by simp))
    rw [ih (upsertAssoc m n.id n) (fun x hx => by
      rw [hkeys]; exact hsub x (List.mem_cons_of_mem _ hx)), hkeys]

theorem nodup_keys_byId_foldl (l : List DerpNode) :
    ∀ m : List (String × DerpNode), (m.map Prod.fst).Nodup →
    ((l.foldl (fun mm n => upsertAssoc mm n.id n) m).map Prod.fst).Nodup := by
  induction l with
  | nil => intro m h; exact h
  | cons n t ih =>
    intro m h
    rw [List.foldl_cons]
    exact ih (upsertAssoc m n.id n) (nodup_keys_upsert m n.id n h)

/-- C9: deduplication is idempotent under self-merge - deduplicating the
concatenation of a node list with itself yields the same node sequence,
hence the same topology, as deduplicating the list once; and the id map
underlying `dedupeNodes` holds, for each id, exactly the last entry of the
list with that id (later entries override earlier ones). -/
theorem dedupeNodes_merge_idempotent (l : List DerpNode) :
    dedupeNodes (l ++ l) = dedupeNodes l ∧
    groupNodesAsDerpMap (dedupeNodes (l ++ l)) = groupNodesAsDerpMap (dedupeNodes l) ∧
    ∀ k : String, lookupKey (nodesById l) k = lastWithId l k := by
  have hlk : ∀ k : String, lookupKey (nodesById l) k = lastWithId l k := by
    intro k
    rw [show nodesById l = l.foldl (fun mm x => upsertAssoc mm x.id x) [] from rfl,
      lookupKey_byId_foldl l [] k]
    cases lastWithId l k <;> simp [lookupKey]
  have hById : nodesById (l ++ l) = nodesById l := by
    rw [show nodesById (l ++ l) = (l ++ l).foldl (fun mm x => upsertAssoc mm x.id x) [] from rfl,
      List.foldl_append,
      show l.foldl (fun mm x => upsertAssoc mm x.id x) [] = nodesById l from rfl]
    have hnd : ((nodesById l).map Prod.fst).Nodup := nodup_keys_byId_foldl l [] (by simp)
    have hkeys : (l.foldl (fun mm n => upsertAssoc mm n.id n) (nodesById l)).map Prod.fst =
        (nodesById l).map Prod.fst :=
      keys_byId_foldl_of_subset l (nodesById l) (fun n hn => mem_id_keys_byId l n hn)
    refine assoc_ext _ _ hkeys (hkeys ▸ hnd) (fun k => ?_)
    rw [lookupKey_byId_foldl l (nodesById l) k, hlk k]
    cases lastWithId l k <;> simp
  refine ⟨?_, ?_, hlk⟩
  · rw [show dedupeNodes (l ++ l) = (nodesById (l ++ l)).map Prod.snd from rfl, hById]
    rfl
  · rw [show dedupeNodes (l ++ l) = (nodesById (l ++ l)).map Prod.snd from rfl, hById]
    rfl

/-! ### Region grouping lemmas (C5) -/

theorem regionWF_nil : RegionWF [] := by
  constructor
  · intro p hp
    simp at hp
  · simp

theorem groupStep_wf (m : List (Int × DerpRegion)) (node : DerpNode)
    (hwf : RegionWF m) : RegionWF (groupStep m node) := by
  obtain ⟨hent, hnd⟩ := hwf
  unfold groupStep
  cases hlk : lookupKey m node.regionId with
  | none =>
    refine ⟨fun p hp => ?_, nodup_keys_upsert m node.regionId _ hnd⟩
    rcases mem_upsert m node.regionId _ p hp with h | h
    · subst h
      refine ⟨rfl, rfl, fun rn hrn => ?_⟩
      simp only [List.mem_singleton] at hrn
      subst hrn
      rfl
    · exact hent p h
  | some existing =>
    have hmem := lookupKey_mem m node.regionId existing hlk
    obtain ⟨hkey, hcode, hnodes⟩ := hent (node.regionId, existing) hmem
    simp only at hkey hcode hnodes
    refine ⟨fun p hp => ?_, nodup_keys_upsert m node.regionId _ hnd⟩
    rcases mem_upsert m node.regionId _ p hp with h | h
    · subst h
      refine ⟨hkey, hcode, fun rn hrn => ?_⟩
      rcases List.mem_append.1 hrn with h1 | h1
      · exact hnodes rn h1
      · simp only [List.mem_singleton] at h1
        subst h1
        simpa [toRegionNode] using hkey
    · exact hent p h

theorem groupStep_lookup_new (m : List (Int × DerpRegion)) (node : DerpNode) :
    ∃ r, lookupKey (groupStep m node) node.regionId = some r ∧
      toRegionNode node ∈ r.Nodes := by
  unfold groupStep
  cases hlk : lookupKey m node.regionId with
  | none =>
    refine ⟨_, lookupKey_upsert_self m node.regionId _, ?_⟩
    simp
  | some existing =>
    refine ⟨_, lookupKey_upsert_self m node.regionId _, ?_⟩
    simp

theorem groupStep_lookup_mono (m : List (Int × DerpRegion)) (node : DerpNode)
    (k : Int) (r : DerpRegion) (x : DerpRegionNode)
    (hlk : lookupKey m k = some r) (hx : x ∈ r.Nodes) :
    ∃ r2, lookupKey (groupStep m node) k = some r2 ∧ x ∈ r2.Nodes := by
  unfold groupStep
  by_cases hk : k = node.regionId
  · subst hk
    rw [hlk]
    refine ⟨_, lookupKey_upsert_self m _ _, ?_⟩
    exact List.mem_append.2 (Or.inl hx)
  · cases hlk2 : lookupKey m node.regionId with
    | none =>
      exact ⟨r, by rw [lookupKey_upsert_ne m node.regionId k _ hk]; exact hlk, hx⟩
    | some existing =>
      exact ⟨r, by rw [lookupKey_upsert_ne m node.regionId k _ hk]; exact hlk, hx⟩

theorem groupFold_lookup_mono (nodes : List DerpNode) :
    ∀ (m : List (Int × DerpRegion)) (k : Int) (r : DerpRegion) (x : DerpRegionNode),
    lookupKey m k = some r → x ∈ r.Nodes →
    ∃ r2, lookupKey (nodes.foldl groupStep m) k = some r2 ∧ x ∈ r2.Nodes := by
  induction nodes with
  | nil => intro m k r x h hx; exact ⟨r, h, hx⟩
  | cons n t ih =>
    intro m k r x h hx
    obtain ⟨r1, hr1, hx1⟩ := groupStep_lookup_mono m n k r x h hx
    rw [List.foldl_cons]
    exact ih (groupStep m n) k r1 x hr1 hx1

theorem groupFold_mem (nodes : List DerpNode) :
    ∀ (m : List (Int × DerpRegion)) (n : DerpNode), n ∈ nodes →
    ∃ r, lookupKey (nodes.foldl groupStep m) n.regionId = some r ∧
      toRegionNode n ∈ r.Nodes := by
  induction nodes with
  | nil => intro m n h; simp at h
  | cons hd t ih =>
    intro m n h
    rw [List.foldl_cons]
    rcases List.mem_cons.1 h with h1 | h1
    · subst h1
      obtain ⟨r, hr, hx⟩ := groupStep_lookup_new m n
      exact groupFold_lookup_mono t (groupStep m n) n.regionId r (toRegionNode n) hr hx
    · exact ih (groupStep m hd) n h1

theorem groupFold_wf (nodes : List DerpNode) :
    ∀ m : List (Int × DerpRegion), RegionWF m → RegionWF (nodes.foldl groupStep m) := by
  induction nodes with
  | nil => intro m h; exact h
  | cons n t ih =>
    intro m h
    rw [List.foldl_cons]
    exact ih (groupStep m n) (groupStep_wf m n h)

/-- C5: for every node list, the grouped topology contains every input node
in the region looked up under its own `regionId` (there is exactly one such
region: region keys are unique), every region entry is keyed by its
region's id, carries the deterministic `region-` code and holds no node of
a different region; and `buildDerpMap` is exactly this grouping applied to
the mode-resolved node set. -/
theorem buildTopology_partitions (nodes : List DerpNode) :
    (∀ n ∈ nodes, ∃ r, lookupKey (groupNodesAsDerpMap nodes) n.regionId = some r ∧
      toRegionNode n ∈ r.Nodes) ∧
    (∀ p ∈ groupNodesAsDerpMap nodes, p.1 = p.2.RegionID ∧
      p.2.RegionCode = "region-" ++ toString p.2.RegionID ∧
      ∀ rn ∈ p.2.Nodes, rn.RegionID = p.2.RegionID) ∧
    ((groupNodesAsDerpMap nodes).map Prod.fst).Nodup ∧
    (∀ mode sh pn ns, resolveNodesByMode mode sh pn = Except.ok ns →
      buildDerpMap mode sh pn = Except.ok (groupNodesAsDerpMap ns)) := by
  have hwf := groupFold_wf nodes [] regionWF_nil
  refine ⟨fun n hn => groupFold_mem nodes [] n hn, hwf.1, hwf.2, ?_⟩
  intro mode sh pn ns h
  simp [buildDerpMap, h, Except.map]

/-- Witness for C5 on a two-node fixture: the self node lands in the region
stored under its own region id. -/
theorem buildTopology_partitions_witness :
    ∃ r, lookupKey (groupNodesAsDerpMap [selfNode, publicNode]) selfNode.regionId = some r ∧
      toRegionNode selfNode ∈ r.Nodes :=
  (buildTopology_partitions [selfNode, publicNode]).1 selfNode (by simp)

/-! ### Mode resolution (C6) -/

/-- C6: resolving the active node set fails (with a configuration error)
exactly when the mode is public-only or hybrid and the resolved external
node set is empty; in self-hosted-only mode it never fails and returns
precisely the deduplicated static nodes, regardless of the external set. -/
theorem resolveNodes_emptyPublic (mode : DerpMode) (sh pn : List DerpNode) :
    ((∃ e, resolveNodesByMode mode sh pn = Except.error e) ↔
      mode ≠ DerpMode.selfHostedOnly ∧ pn = []) ∧
    (mode = DerpMode.selfHostedOnly →
      resolveNodesByMode mode sh pn = Except.ok (dedupeNodes sh)) := by
  cases mode <;> cases pn <;>
    simp [resolveNodesByMode, List.length_eq_zero]

/-- Witness for C6: public-only with an empty external set throws. -/
theorem resolveNodes_emptyPublic_witness :
    ∃ e, resolveNodesByMode DerpMode.publicOnly [selfNode] [] = Except.error e :=
  (resolveNodes_emptyPublic DerpMode.publicOnly [selfNode] []).1.mpr ⟨by simp, rfl⟩

/-! ### Cooldown configuration (C8) -/

/-- C8 is false on the code: for the positive non-integer configuration
value 2.5 (exactly representable as a JS double), the effective cooldown is
`Math.floor(2.5) = 2`, not the default 10000 the claim requires for a value
that is not a positive integer. -/
theorem cooldown_floor_counterexample :
    effectiveCooldownMs (some ((5 : ℚ) / 2)) = 2 ∧ (2 : Int) ≠ DEFAULT_COOLDOWN_MS := by
  constructor
  · rw [effectiveCooldownMs]
    norm_num
  · decide

/-- C8 (amended): the effective cooldown is `cooldownMs` itself for a
positive integer, the floor of `cooldownMs` for any positive number, and
the default 10000 when the field is absent, zero or negative. -/
theorem effectiveCooldown_characterization :
    (∀ n : Nat, 0 < n → effectiveCooldownMs (some (n : ℚ)) = (n : Int)) ∧
    effectiveCooldownMs none = DEFAULT_COOLDOWN_MS ∧
    (∀ q : ℚ, q ≤ 0 → effectiveCooldownMs (some q) = DEFAULT_COOLDOWN_MS) ∧
    (∀ q : ℚ, 0 < q → effectiveCooldownMs (some q) = Int.floor q) := by
    refine ⟨?_, rfl, ?_, ?_⟩
    · intro n hn
      rw [effectiveCooldownMs, if_pos (by exact_mod_cast hn)]
      exact_mod_cast Int.floor_natCast n
    · intro q hq
      rw [effectiveCooldownMs, if_neg (not_lt.mpr hq)]
    · intro q hq
      rw [effectiveCooldownMs, if_pos hq]

/-- Witness for C8's amended theorem: a positive integer cooldown of 3 is
taken as-is. -/
theorem effectiveCooldown_characterization_witness :
    effectiveCooldownMs (some ((3 : Nat) : ℚ)) = ((3 : Nat) : Int) :=
  effectiveCooldown_characterization.1 3 (by decide)

/-! ### Relay selection (C4, C10) -/

theorem latLE_trans (metrics : List (String × ℚ)) : ∀ a b c : DerpNode,
    latLE metrics a b → latLE metrics b c → latLE metrics a c := by
  intro a b c hab hbc
  simp only [latLE, decide_eq_true_eq] at hab hbc ⊢
  exact le_trans hab hbc

theorem latLE_total (metrics : List (String × ℚ)) : ∀ a b : DerpNode,
    latLE metrics a b || latLE metrics b a := by
  intro a b
  simp only [latLE, Bool.or_eq_true, decide_eq_true_eq]
  exact le_total _ _

theorem sortByLatency_pairwise (nodes : List DerpNode) (metrics : List (String × ℚ)) :
    (sortByLatency nodes metrics).Pairwise (fun a b => latLE metrics a b = true) :=
  List.sorted_mergeSort (latLE_trans metrics) (latLE_total metrics) nodes

theorem sortByLatency_perm (nodes : List DerpNode) (metrics : List (String × ℚ)) :
    (sortByLatency nodes metrics).Perm nodes :=
  List.mergeSort_perm nodes (latLE metrics)

/-- Hysteresis suppression: with an active node that is still present,
differs from the best-ranked node, and a call strictly inside the cooldown
window, the selector returns the active node and the state is untouched. -/
theorem select_suppress_eq (nodes : List DerpNode) (metrics : List (String × ℚ))
    (cooldownMs : Int) (st : SelectorState) (ts : Int) (a : String)
    (current best : DerpNode) (rest : List DerpNode)
    (h1 : st.activeNodeId = some a) (h2 : a ≠ "")
    (h3 : sortByLatency nodes metrics = best :: rest) (h4 : a ≠ best.id)
    (h5 : nodes.find? (fun item => item.id = a) = some current)
    (h6 : ts - st.lastSwitchAt < cooldownMs) :
    selectRelayNode nodes metrics cooldownMs st ts = (some current, st) := by
  have hlen : nodes.length ≠ 0 := by
    intro h0
    rw [List.length_eq_zero] at h0
    subst h0
    simp at h5
  unfold selectRelayNode
  rw [if_neg hlen]
  simp only [h3, h1]
  rw [if_pos (show a ≠ "" ∧ a ≠ best.id ∧ ts - st.lastSwitchAt < cooldownMs from ⟨h2, h4, h6⟩)]
  simp only [h5]

/-- C4: with no active node the selector returns a minimal-latency node and
records the switch; with an active node differing from the best-ranked one
and still present, a call strictly inside the cooldown window returns the
active node with the state unchanged, while a call at or after the window's
end returns the best-ranked node and updates both the active node and the
switch timestamp; in the ranking, an unmeasured node never precedes a node
measured below `Number.MAX_SAFE_INTEGER`, and ties keep the original
resolution order (stability). -/
theorem selectRelayNode_spec (nodes : List DerpNode) (metrics : List (String × ℚ))
    (cooldownMs : Int) (st : SelectorState) (ts : Int) :
    (st.activeNodeId = none → nodes ≠ [] →
      ∃ best rest, sortByLatency nodes metrics = best :: rest ∧
        best ∈ nodes ∧
        (∀ n ∈ nodes, latencyOf metrics best.id ≤ latencyOf metrics n.id) ∧
        selectRelayNode nodes metrics cooldownMs st ts =
          (some best, { activeNodeId := some best.id, lastSwitchAt := ts })) ∧
    (∀ (a : String) (current best : DerpNode) (rest : List DerpNode),
      st.activeNodeId = some a → a ≠ "" →
      sortByLatency nodes metrics = best :: rest → a ≠ best.id →
      nodes.find? (fun item => item.id = a) = some current →
      ts - st.lastSwitchAt < cooldownMs →
      selectRelayNode nodes metrics cooldownMs st ts = (some current, st)) ∧
    (∀ (a : String) (best : DerpNode) (rest : List DerpNode),
      st.activeNodeId = some a →
      sortByLatency nodes metrics = best :: rest → a ≠ best.id →
      cooldownMs ≤ ts - st.lastSwitchAt →
      selectRelayNode nodes metrics cooldownMs st ts =
        (some best, { activeNodeId := some best.id, lastSwitchAt := ts })) ∧
    (∀ (a b : DerpNode) (v : ℚ), lookupKey metrics a.id = some v →
      v < MAX_SAFE_INTEGER → lookupKey metrics b.id = none →
      ¬ [b, a].Sublist (sortByLatency nodes metrics)) ∧
    (∀ a b : DerpNode, latencyOf metrics a.id ≤ latencyOf metrics b.id →
      [a, b].Sublist nodes → [a, b].Sublist (sortByLatency nodes metrics)) := by
  refine ⟨?_, ?_, ?_, ?_, ?_⟩
  · intro hnone hne
    have hperm := sortByLatency_perm nodes metrics
    cases hs : sortByLatency nodes metrics with
    | nil =>
      rw [hs] at hperm
      exact absurd hperm.symm.eq_nil hne
    | cons best rest =>
      refine ⟨best, rest, rfl, ?_, ?_, ?_⟩
      · exact hperm.mem_iff.1 (by rw [hs]; exact List.mem_cons_self best rest)
      · intro n hn
        have hnsort : n ∈ sortByLatency nodes metrics := hperm.mem_iff.2 hn
        rw [hs] at hnsort
        rcases List.mem_cons.1 hnsort with h1 | h1
        · rw [h1]
        · have hpw := sortByLatency_pairwise nodes metrics
          rw [hs] at hpw
          have := (List.pairwise_cons.1 hpw).1 n h1
          simpa [latLE, decide_eq_true_eq] using this
      · have hlen : nodes.length ≠ 0 := by
          intro h0
          exact hne (List.length_eq_zero.1 h0)
        unfold selectRelayNode
        rw [if_neg hlen]
        simp only [hs, hnone]
        rw [if_neg (show ¬((none : Option String) = some best.id) from by simp)]
  · intro a current best rest h1 h2 h3 h4 h5 h6
    exact select_suppress_eq nodes metrics cooldownMs st ts a current best rest h1 h2 h3 h4 h5 h6
  · intro a best rest h1 h3 h4 h6
    have hperm := sortByLatency_perm nodes metrics
    rw [h3] at hperm
    have hlen : nodes.length ≠ 0 := by
      rw [← hperm.length_eq]
      simp
    unfold selectRelayNode
    rw [if_neg hlen]
    simp only [h3, h1]
    rw [if_neg (show ¬(a ≠ "" ∧ a ≠ best.id ∧ ts - st.lastSwitchAt < cooldownMs) from
      fun hc => absurd hc.2.2 (not_lt.mpr h6))]
    rw [if_neg (show ¬(some a = some best.id) from by simp [h4])]
  · intro a b v hva hvlt hvb hsub
    have hpw := sortByLatency_pairwise nodes metrics
    have hp2 := List.Pairwise.sublist hsub hpw
    have hba := (List.pairwise_cons.1 hp2).1 a (by simp)
    simp only [latLE, decide_eq_true_eq, latencyOf, hva, hvb, Option.getD_some,
      Option.getD_none] at hba
    exact absurd hba (not_le.mpr hvlt)
  · intro a b hab hsub
    exact List.pair_sublist_mergeSort (latLE_trans metrics) (latLE_total metrics)
      (by simpa [latLE, decide_eq_true_eq] using hab) hsub

/-- Witness for C4 at the spec's example: latencies self 20, public 100 and
no active node select the self node and record the switch. -/
theorem selectRelayNode_spec_witness :
    ∃ best rest,
      sortByLatency [selfNode, publicNode] [("self", (20 : ℚ)), ("public", 100)] =
        best :: rest ∧
      best ∈ [selfNode, publicNode] ∧
      (∀ n ∈ [selfNode, publicNode],
        latencyOf [("self", (20 : ℚ)), ("public", 100)] best.id ≤
          latencyOf [("self", (20 : ℚ)), ("public", 100)] n.id) ∧
      selectRelayNode [selfNode, publicNode] [("self", (20 : ℚ)), ("public", 100)] 10000
          { activeNodeId := none, lastSwitchAt := 0 } 1000 =
        (some best, { activeNodeId := some best.id, lastSwitchAt := 1000 }) :=
  (selectRelayNode_spec [selfNode, publicNode] [("self", (20 : ℚ)), ("public", 100)] 10000
    { activeNodeId := none, lastSwitchAt := 0 } 1000).1 rfl (by simp)

/-- C10: when the hysteresis rule suppresses a switch, the selector returns
the currently active node and leaves the selector state completely
unchanged - `activeNodeId` and `lastSwitchAt` keep their values (so the
cooldown keeps expiring relative to the original switch time no matter how
many suppressed calls occur). -/
theorem selectRelayNode_suppression_frame (nodes : List DerpNode)
    (metrics : List (String × ℚ)) (cooldownMs : Int) (st : SelectorState) (ts : Int)
    (a : String) (current best : DerpNode) (rest : List DerpNode)
    (h1 : st.activeNodeId = some a) (h2 : a ≠ "")
    (h3 : sortByLatency nodes metrics = best :: rest) (h4 : a ≠ best.id)
    (h5 : nodes.find? (fun item => item.id = a) = some current)
    (h6 : ts - st.lastSwitchAt < cooldownMs) :
    (selectRelayNode nodes metrics cooldownMs st ts).1 = some current ∧
    (selectRelayNode nodes metrics cooldownMs st ts).2.activeNodeId = st.activeNodeId ∧
    (selectRelayNode nodes metrics cooldownMs st ts).2.lastSwitchAt = st.lastSwitchAt ∧
    (selectRelayNode nodes metrics cooldownMs st ts).2 = st := by
  have h := select_suppress_eq nodes metrics cooldownMs st ts a current best rest
    h1 h2 h3 h4 h5 h6
  rw [h]
  exact ⟨rfl, rfl, rfl, rfl⟩

/-- Witness for C10: active self node, public measured faster, call at time
500 inside the 10000 cooldown - self is returned and the state is the one
from time 0. -/
theorem selectRelayNode_suppression_frame_witness :
    (selectRelayNode [selfNode, publicNode] [("self", (100 : ℚ)), ("public", 20)] 10000
      { activeNodeId := some "self", lastSwitchAt := 0 } 500).1 = some selfNode ∧
    (selectRelayNode [selfNode, publicNode] [("self", (100 : ℚ)), ("public", 20)] 10000
      { activeNodeId := some "self", lastSwitchAt := 0 } 500).2.activeNodeId =
      ({ activeNodeId := some "self", lastSwitchAt := 0 } : SelectorState).activeNodeId ∧
    (selectRelayNode [selfNode, publicNode] [("self", (100 : ℚ)), ("public", 20)] 10000
      { activeNodeId := some "self", lastSwitchAt := 0 } 500).2.lastSwitchAt =
      ({ activeNodeId := some "self", lastSwitchAt := 0 } : SelectorState).lastSwitchAt ∧
    (selectRelayNode [selfNode, publicNode] [("self", (100 : ℚ)), ("public", 20)] 10000
      { activeNodeId := some "self", lastSwitchAt := 0 } 500).2 =
      { activeNodeId := some "self", lastSwitchAt := 0 } :=
  selectRelayNode_suppression_frame [selfNode, publicNode]
    [("self", (100 : ℚ)), ("public", 20)] 10000
    { activeNodeId := some "self", lastSwitchAt := 0 } 500 "self" selfNode publicNode
    [selfNode] rfl (by decide)
    (by simp +decide [sortByLatency, List.mergeSort, List.merge, latLE, latencyOf,
      lookupKey, selfNode, publicNode])
    (by decide) (by decide) (by decide)

end MNet
